import Mathlib

set_option autoImplicit false

/-!
Verification development for the `mem0-selfhost` local assistant
(`app/local_assistant.py`, with collaborator `app/mem0_client.py`).

The Python code is shallowly embedded:
* Python values that flow through the memory pipeline are modelled by the
  inductive `PyVal` (dictionaries are association lists with string keys,
  which is the only key shape the program ever uses).
* Python truthiness, `dict.get`, the `or` fallback chain, `str()`/`repr()`,
  `str.lower()`, `str.strip()` and `str.split(maxsplit=n)` are modelled by
  explicit functions below (ASCII case folding and the ASCII whitespace set,
  which covers every string the program manipulates).
* Fallible code (attribute errors, propagating collaborator failures) is
  modelled with `Except String`.
* The network collaborators (`mem_client`, `oa_client`) are inputs: an
  environment record supplies each call's outcome, and the embedding records
  the calls that were issued together with their arguments.
-/

/-- Model of the Python values handled by the assistant: `None`, booleans,
integers, strings, lists and string-keyed dictionaries. -/
inductive PyVal where
  | none : PyVal
  | bool : Bool → PyVal
  | int : Int → PyVal
  | str : String → PyVal
  | list : List PyVal → PyVal
  | dict : List (String × PyVal) → PyVal

/-- Python truthiness for the modelled values: `None`, `False`, `0`, `""`,
`[]` and `{}` are falsy, everything else is truthy. -/
def truthy : PyVal → Bool
  | .none => false
  | .bool b => b
  | .int n => n != 0
  | .str s => s != ""
  | .list xs => !xs.isEmpty
  | .dict d => !d.isEmpty

/-- Dictionary lookup (`obj[k]` / `k in obj`): first binding of the key. -/
def dictGet (d : List (String × PyVal)) (k : String) : Option PyVal :=
  (d.find? (fun p => p.1 == k)).map (fun p => p.2)

/-- Python `d.get(k)`: the bound value, or `None` when the key is absent. -/
def pyGet (d : List (String × PyVal)) (k : String) : PyVal :=
  (dictGet d k).getD PyVal.none

/-- Python `a or b`: `a` when truthy, otherwise `b`. -/
def pyOr (a b : PyVal) : PyVal :=
  if truthy a then a else b

/-- Escape one character the way Python `repr` escapes it inside a string
delimited by the quote character `q`. -/
def pyEscapeChar (q : Char) (c : Char) : String :=
  if c = '\\' then "\\\\"
  else if c = q then "\\" ++ String.mk [q]
  else if c = '\n' then "\\n"
  else if c = '\r' then "\\r"
  else if c = '\t' then "\\t"
  else String.mk [c]

/-- Python `repr` of a string (printable characters): single quotes by
default, double quotes when the string holds a single quote but no double
quote, with backslash/quote/control escapes. -/
def pyStrRepr (s : String) : String :=
  let q : Char :=
    if s.data.contains '\'' && !s.data.contains '"' then '"' else '\''
  String.mk [q] ++ String.join (s.data.map (pyEscapeChar q)) ++ String.mk [q]

mutual
/-- Python `repr` of a modelled value. -/
def pyRepr : PyVal → String
  | .none => "None"
  | .bool true => "True"
  | .bool false => "False"
  | .int n => toString n
  | .str s => pyStrRepr s
  | .list xs => "[" ++ pyReprItems xs ++ "]"
  | .dict d => "\x7b" ++ pyReprEntries d ++ "\x7d"

/-- Comma-joined `repr`s of the elements of a list. -/
def pyReprItems : List PyVal → String
  | [] => ""
  | [x] => pyRepr x
  | x :: y :: xs => pyRepr x ++ ", " ++ pyReprItems (y :: xs)

/-- Comma-joined `key: value` renderings of the entries of a dictionary. -/
def pyReprEntries : List (String × PyVal) → String
  | [] => ""
  | [(k, v)] => pyStrRepr k ++ ": " ++ pyRepr v
  | (k, v) :: e :: es => pyStrRepr k ++ ": " ++ pyRepr v ++ ", " ++ pyReprEntries (e :: es)
end

/-- Python `str()` of a modelled value: strings are returned verbatim, every
other value prints as its `repr` (which agrees with `str` there). -/
def pyStr : PyVal → String
  | .str s => s
  | v => pyRepr v

/-- `_normalize_mem_items` (local_assistant.py:31-47): coerce a Mem0 response
into a list of memory-like values. -/
def normalize_mem_items : PyVal → List PyVal
  | .none => []
  | .list xs => xs
  | .dict d =>
    match dictGet d "results" with
    | some (.list xs) => xs
    | _ => [.dict d]
  | v => [v]

/-- Text resolution inside `format_memories` (local_assistant.py:63-68): the
`or` chain `m.get("text") or m.get("memory") or m.get("data", {}).get("memory")
or str(m)`. The third link evaluates `.get` on the value of the `data` key
(default `{}` only when the key is absent), which raises `AttributeError`
when that value is not a dictionary. -/
def getText (md : List (String × PyVal)) : Except String PyVal :=
  let t1 := pyGet md "text"
  if truthy t1 then .ok t1
  else
    let t2 := pyGet md "memory"
    if truthy t2 then .ok t2
    else
      match (dictGet md "data").getD (PyVal.dict []) with
      | .dict d2 =>
        let t3 := pyGet d2 "memory"
        if truthy t3 then .ok t3 else .ok (.str (pyStr (.dict md)))
      | _ => .error "AttributeError: object has no attribute 'get'"

/-- One iteration of the loop in `format_memories` (local_assistant.py:57-80):
renders a single normalized item, or raises where the Python code would
(`AttributeError` from `.get` on a truthy non-dict metadata value,
`TypeError` from `", ".join` on a truthy non-string source value). -/
def renderLine (m : PyVal) : Except String String :=
  match m with
  | .dict md =>
    let memoryId := pyOr (pyGet md "id") (pyOr (pyGet md "_id") (.str "?"))
    match getText md with
    | .error e => .error e
    | .ok text =>
      match pyOr (pyGet md "metadata") (pyOr (pyGet md "meta") (.dict [])) with
      | .dict mm =>
        let sourceVal := pyOr (pyGet mm "source") (.str "")
        let important := pyGet mm "important"
        let flagsE : Except String (List String) :=
          if truthy sourceVal then
            match sourceVal with
            | .str s => .ok (if truthy important then [s, "important"] else [s])
            | _ => .error "TypeError: sequence item 0: expected str instance"
          else .ok (if truthy important then ["important"] else [])
        match flagsE with
        | .error e => .error e
        | .ok flags =>
          let pfx := "[" ++ pyStr memoryId ++ "]"
          let pfx := if flags.isEmpty then pfx
            else pfx ++ " (" ++ String.intercalate ", " flags ++ ")"
          .ok (pfx ++ " " ++ pyStr text)
      | _ => .error "AttributeError: object has no attribute 'get'"
  | _ => .ok (pyStr m)

/-- The loop of `format_memories` (local_assistant.py:56-80): render each item
in order, aborting at the first item whose rendering raises. -/
def renderAll : List PyVal → Except String (List String)
  | [] => .ok []
  | m :: rest =>
    match renderLine m with
    | .error e => .error e
    | .ok line =>
      match renderAll rest with
      | .error e => .error e
      | .ok lines => .ok (line :: lines)

/-- `format_memories` (local_assistant.py:50-81): normalize, return the
placeholder on an empty result, otherwise render the first `limit` items one
line each and join with newlines. -/
def format_memories (memories : PyVal) (limit : Nat := 20) : Except String String :=
  let items := normalize_mem_items memories
  if items.isEmpty then .ok "No memories found."
  else
    match renderAll (items.take limit) with
    | .error e => .error e
    | .ok lines => .ok (String.intercalate "\n" lines)

/-- Does `needle` occur at the start of the list (Python `startswith`)? -/
def hasPrefixChars : List Char → List Char → Bool
  | [], _ => true
  | _ :: _, [] => false
  | a :: as, b :: bs => a == b && hasPrefixChars as bs

/-- Python `needle in hay` on character lists: some suffix of `hay` starts
with `needle`. -/
def containsSub (needle : List Char) : List Char → Bool
  | [] => hasPrefixChars needle []
  | c :: rest => hasPrefixChars needle (c :: rest) || containsSub needle rest

/-- Python `needle in hay` on strings. -/
def pyIn (needle hay : String) : Bool :=
  containsSub needle.data hay.data

/-- Python `str.lower()` on one character (ASCII fold, which covers every
character the program compares). -/
def pyCharLower (c : Char) : Char :=
  if 'A' ≤ c ∧ c ≤ 'Z' then Char.ofNat (c.toNat + 32) else c

/-- Python `str.lower()` (ASCII fold). -/
def pyLowerStr (s : String) : String :=
  ⟨s.data.map pyCharLower⟩

/-- The fixed keyword list of `should_store_memory` (local_assistant.py:93-103). -/
def keywords : List String :=
  ["remember", "note this", "important", "permanent", "preference",
   "goal", "target", "schedule", "budget"]

/-- `should_store_memory` (local_assistant.py:86-109): a turn is important when
some keyword occurs in the lower-cased `user_input ++ " " ++ answer`, or when
the user input is longer than 140 characters. -/
def should_store_memory (user_input answer : String) : Bool :=
  let text := pyLowerStr (user_input ++ " " ++ answer)
  if keywords.any (fun k => pyIn k text) then true
  else if user_input.length > 140 then true
  else false

/-- Python `str.split()` whitespace (ASCII set: space, tab, newline, carriage
return, vertical tab, form feed). -/
def pyIsSpace (c : Char) : Bool :=
  c = ' ' || c = '\t' || c = '\n' || c = '\r' || c = '\x0b' || c = '\x0c'

/-- Negation of `pyIsSpace`, the token-character predicate of `str.split()`. -/
def nonWs (c : Char) : Bool := !pyIsSpace c

/-- Python `str.lstrip()` on character lists. -/
def lstripChars (cs : List Char) : List Char := cs.dropWhile pyIsSpace

/-- Python `str.rstrip()` on character lists. -/
def rstripChars (cs : List Char) : List Char :=
  (cs.reverse.dropWhile pyIsSpace).reverse

/-- Python `str.strip()` on character lists. -/
def pyStripChars (cs : List Char) : List Char := rstripChars (lstripChars cs)

/-- Python `str.strip()`. -/
def pyStrip (s : String) : String := ⟨pyStripChars s.data⟩

/-- Python `str.split(maxsplit=n)`: skip leading whitespace; with splits left,
emit the maximal whitespace-free token and recurse; with none left, emit the
remainder verbatim. Returns no empty tokens. -/
def splitWsMax : Nat → List Char → List (List Char)
  | 0, cs =>
    let rest := cs.dropWhile pyIsSpace
    if rest.isEmpty then [] else [rest]
  | n + 1, cs =>
    let rest := cs.dropWhile pyIsSpace
    if rest.isEmpty then []
    else rest.takeWhile nonWs :: splitWsMax n (rest.dropWhile nonWs)

/-- The process-wide mutable state of local_assistant.py: the active agent
identifier `CURRENT_AGENT_ID` (line 19, initial value "vera"). -/
structure St where
  CURRENT_AGENT_ID : String
deriving DecidableEq

/-- A `{role, content}` chat message. -/
structure Msg where
  role : String
  content : String
deriving DecidableEq

/-- The arguments of one `mem_client.add_memories` invocation issued by
`chat_once` (local_assistant.py:158-165). -/
structure AddCall where
  messages : List Msg
  agent_id : String
  metadata : PyVal

/-- The collaborator outcomes a single `chat_once` turn can observe:
the memory search result (or raised error), the completion reply as a
function of the sent messages (or raised error), and the outcome of the
memory add call. -/
structure Env where
  searchResult : Except String PyVal
  completion : List Msg → Except String String
  addResult : Except String PyVal

/-- `SYSTEM_PROMPT` (local_assistant.py:22-26). -/
def SYSTEM_PROMPT : String :=
  "You are Jose's personal assistant.\n" ++
  "You have access to an external long-term memory system.\n" ++
  "Use the provided memories as context, but do NOT mention the memory system by name.\n" ++
  "Always keep answers short, direct, and practical.\n"

/-- Step 1 of `chat_once` (local_assistant.py:118-122): the effective search
results, `mem_client.search(...) or []` with the empty list substituted when
the call raises. -/
def effResults (env : Env) : PyVal :=
  match env.searchResult with
  | .ok r => if truthy r then r else .list []
  | .error _ => .list []

/-- The operator-visible log produced by step 1 of `chat_once`: one
`[mem0 search error]` line when the search call raised. -/
def searchLogs (env : Env) : List String :=
  match env.searchResult with
  | .ok _ => []
  | .error e => ["[mem0 search error] " ++ e]

/-- Step 2 of `chat_once` (local_assistant.py:127-144): the message sequence
sent to the completion collaborator. -/
def mkMessages (st : St) (memoryBlock : String) (userInput : String) : List Msg :=
  [⟨"system", SYSTEM_PROMPT⟩,
   ⟨"system", "Current agent: " ++ st.CURRENT_AGENT_ID⟩,
   ⟨"system", "Relevant prior memories:\n" ++ memoryBlock⟩,
   ⟨"user", userInput⟩]

/-- Everything observable about one `chat_once` turn: the returned answer (or
the propagated error), the state afterwards, the printed error logs, and the
`add_memories` calls issued with their arguments. -/
structure TurnResult where
  result : Except String String
  st : St
  logs : List String
  addCalls : List AddCall

/-- `chat_once` (local_assistant.py:114-169): search memories (failure
swallowed and logged, results default empty), format them, build the prompt,
call the completion collaborator (failure propagates), then persist the turn
(failure swallowed and logged) and return the answer. A formatting error
(possible on malformed search results) also propagates, since
`format_memories` runs outside both `try` blocks. -/
def chat_once (env : Env) (st : St) (user_input : String) : TurnResult :=
  match format_memories (effResults env) 8 with
  | .error e => ⟨.error e, st, searchLogs env, []⟩
  | .ok memory_block =>
    match env.completion (mkMessages st memory_block user_input) with
    | .error e => ⟨.error e, st, searchLogs env, []⟩
    | .ok answer =>
      let important := should_store_memory user_input answer
      let call : AddCall :=
        ⟨[⟨"user", user_input⟩, ⟨"assistant", answer⟩],
         st.CURRENT_AGENT_ID,
         .dict [("source", .str "local_assistant"), ("important", .bool important)]⟩
      let addLogs :=
        match env.addResult with
        | .ok _ => []
        | .error e => ["[mem0 add error] " ++ e]
      ⟨.ok answer, st, searchLogs env ++ addLogs, [call]⟩

/-- The collaborator outcomes the `/mem` command handler can observe, one per
`mem_client` method it may call (keyed by the argument where relevant). -/
structure MemEnv where
  listResult : Except String PyVal
  searchFor : String → Except String PyVal
  getFor : String → Except String PyVal
  deleteFor : String → Except String PyVal
  deleteAllResult : Except String PyVal

/-- One network call issued by `handle_mem_command`, with its arguments. -/
inductive MemCall where
  | list (agent : String)
  | search (query agent : String)
  | get (memoryId : String)
  | del (memoryId : String)
  | deleteAll (agent : String)
deriving DecidableEq

/-- Everything observable about one `handle_mem_command` invocation: the reply
(or a propagated formatting error), the state afterwards, and the calls made. -/
structure MemOutcome where
  reply : Except String String
  st : St
  calls : List MemCall

/-- The usage text returned for an unrecognized `/mem` subcommand
(local_assistant.py:237-244). -/
def memUsage : String :=
  "Unknown /mem command. Use:\n/mem\n/mem search <query>\n/mem show <id>\n" ++
  "/mem delete <id>\n/mem clear"

/-- The dispatch of `handle_mem_command` after parsing
(local_assistant.py:187-244), keyed by `parts`: list on a lone `/mem`,
otherwise match `parts[1].lower()` against the subcommands, demanding an
argument (`parts[2]`) for search/show/delete. -/
def handle_mem_parts (env : MemEnv) (st : St) (parts : List String) : MemOutcome :=
  if parts.length = 1 then
    match env.listResult with
    | .error e => ⟨.ok ("[mem0 list error] " ++ e), st, [.list st.CURRENT_AGENT_ID]⟩
    | .ok res => ⟨format_memories res 30, st, [.list st.CURRENT_AGENT_ID]⟩
  else
    let sub :=
      match parts with
      | _ :: p1 :: _ => pyLowerStr p1
      | _ => ""
    if sub = "search" then
      match parts with
      | _ :: _ :: query :: _ =>
        match env.searchFor query with
        | .error e => ⟨.ok ("[mem0 search error] " ++ e), st,
            [.search query st.CURRENT_AGENT_ID]⟩
        | .ok res => ⟨format_memories res 30, st, [.search query st.CURRENT_AGENT_ID]⟩
      | _ => ⟨.ok "Usage: /mem search <query>", st, []⟩
    else if sub = "show" then
      match parts with
      | _ :: _ :: memoryId :: _ =>
        match env.getFor memoryId with
        | .error e => ⟨.ok ("[mem0 get error] " ++ e), st, [.get memoryId]⟩
        | .ok m => ⟨format_memories m 1, st, [.get memoryId]⟩
      | _ => ⟨.ok "Usage: /mem show <memory_id>", st, []⟩
    else if sub = "delete" then
      match parts with
      | _ :: _ :: memoryId :: _ =>
        match env.deleteFor memoryId with
        | .error e => ⟨.ok ("[mem0 delete error] " ++ e), st, [.del memoryId]⟩
        | .ok res => ⟨.ok ("Deleted memory " ++ memoryId ++ ": " ++ pyStr res), st,
            [.del memoryId]⟩
      | _ => ⟨.ok "Usage: /mem delete <memory_id>", st, []⟩
    else if sub = "clear" then
      match env.deleteAllResult with
      | .error e => ⟨.ok ("[mem0 clear error] " ++ e), st, [.deleteAll st.CURRENT_AGENT_ID]⟩
      | .ok res => ⟨.ok ("Cleared all memories for agent '" ++ st.CURRENT_AGENT_ID ++
          "': " ++ pyStr res), st, [.deleteAll st.CURRENT_AGENT_ID]⟩
    else ⟨.ok memUsage, st, []⟩

/-- The parsing step of `handle_mem_command` (local_assistant.py:184):
`cmd.strip().split(maxsplit=2)`. -/
def memParse (cmd : String) : List String :=
  (splitWsMax 2 (pyStripChars cmd.data)).map String.mk

/-- `handle_mem_command` (local_assistant.py:174-244). -/
def handle_mem_command (env : MemEnv) (st : St) (cmd : String) : MemOutcome :=
  handle_mem_parts env st (memParse cmd)

/-- The parsing step of `handle_agent_command` (local_assistant.py:256):
`cmd.strip().split(maxsplit=1)`. -/
def agentParse (cmd : String) : List String :=
  (splitWsMax 1 (pyStripChars cmd.data)).map String.mk

/-- `handle_agent_command` (local_assistant.py:249-267): report the current
agent on a bare `/agent`, otherwise switch to `parts[1].strip()` unless that
is empty (usage message). An input with no token at all (impossible for the
`/agent`-prefixed commands this handler receives) would raise `IndexError`
at `parts[1]`. -/
def handle_agent_command (st : St) (cmd : String) : Except String (String × St) :=
  let parts := agentParse cmd
  if parts.length = 1 then .ok ("Current agent: " ++ st.CURRENT_AGENT_ID, st)
  else
    match parts with
    | _ :: p1 :: _ =>
      let newAgent := pyStrip p1
      if newAgent = "" then .ok ("Usage: /agent <name>", st)
      else .ok ("Switched agent to: " ++ newAgent, ⟨newAgent⟩)
    | _ => .error "IndexError: list index out of range"

/-! ### Helper lemmas -/

theorem hasPrefixChars_iff (n : List Char) :
    ∀ l : List Char, hasPrefixChars n l = true ↔ ∃ r, l = n ++ r := by
  induction n with
  | nil =>
    intro l
    simp [hasPrefixChars]
  | cons a as ih =>
    intro l
    cases l with
    | nil =>
      simp [hasPrefixChars]
    | cons b bs =>
      simp only [hasPrefixChars, Bool.and_eq_true, beq_iff_eq, ih bs, List.cons_append]
      constructor
      · rintro ⟨rfl, r, rfl⟩
        exact ⟨r, rfl⟩
      · rintro ⟨r, h⟩
        cases h
        exact ⟨rfl, r, rfl⟩

theorem containsSub_iff (n : List Char) :
    ∀ hay : List Char, containsSub n hay = true ↔ ∃ l r, hay = l ++ n ++ r := by
  intro hay
  induction hay with
  | nil =>
    simp only [containsSub, hasPrefixChars_iff]
    constructor
    · rintro ⟨r, h⟩
      exact ⟨[], r, by simpa using h⟩
    · rintro ⟨l, r, h⟩
      have h' : l = [] ∧ n = [] ∧ r = [] := by
        have := h.symm
        simpa [List.append_eq_nil] using this
      exact ⟨r, by simp [h'.1, h'.2.1, h'.2.2]⟩
  | cons c rest ih =>
    simp only [containsSub, Bool.or_eq_true, hasPrefixChars_iff, ih]
    constructor
    · rintro (⟨r, h⟩ | ⟨l, r, h⟩)
      · exact ⟨[], r, by simpa using h⟩
      · exact ⟨c :: l, r, by simp [h]⟩
    · rintro ⟨l, r, h⟩
      cases l with
      | nil => exact Or.inl ⟨r, by simpa using h⟩
      | cons x xs =>
        right
        refine ⟨xs, r, ?_⟩
        simpa using (List.cons_eq_cons.mp (by simpa using h)).2

theorem pyIn_iff (needle hay : String) :
    pyIn needle hay = true ↔ ∃ l r, hay.data = l ++ needle.data ++ r := by
  simpa [pyIn] using containsSub_iff needle.data hay.data

theorem renderAll_length :
    ∀ (l : List PyVal) (l' : List String), renderAll l = .ok l' → l'.length = l.length := by
  intro l
  induction l with
  | nil =>
    intro l' h
    cases h
    rfl
  | cons a as ih =>
    intro l' h
    simp only [renderAll] at h
    cases hf : renderLine a with
    | error e => simp [hf] at h
    | ok b =>
      cases hm : renderAll as with
      | error e => simp [hf, hm] at h
      | ok bs =>
        simp [hf, hm] at h
        cases h
        simp [ih bs hm]

theorem renderAll_ok_of_all :
    ∀ l : List PyVal, (∀ a ∈ l, ∃ b, renderLine a = .ok b) →
      ∃ l', renderAll l = .ok l' := by
  intro l
  induction l with
  | nil => intro _; exact ⟨[], rfl⟩
  | cons a as ih =>
    intro h
    obtain ⟨b, hb⟩ := h a (by simp)
    obtain ⟨bs, hbs⟩ := ih (fun x hx => h x (by simp [hx]))
    exact ⟨b :: bs, by simp [renderAll, hb, hbs]⟩

theorem splitWsMax_length (n : Nat) :
    ∀ cs : List Char, (splitWsMax n cs).length ≤ n + 1 := by
  induction n with
  | zero =>
    intro cs
    simp only [splitWsMax]
    split <;> simp
  | succ n ih =>
    intro cs
    simp only [splitWsMax]
    split
    · simp
    · simpa [Nat.succ_le_succ_iff] using ih _

theorem dropWhile_first_false (p : Char → Bool) :
    ∀ (l : List Char) (c : Char) (r : List Char),
      l.dropWhile p = c :: r → p c = false := by
  intro l
  induction l with
  | nil => intro c r h; simp at h
  | cons a as ih =>
    intro c r h
    rw [List.dropWhile_cons] at h
    by_cases ha : p a
    · rw [if_pos ha] at h
      exact ih c r h
    · rw [if_neg ha] at h
      cases h
      exact Bool.of_not_eq_true ha

theorem dropWhile_of_all_false (p : Char → Bool) :
    ∀ l : List Char, (∀ c ∈ l, p c = false) → l.dropWhile p = l := by
  intro l h
  cases l with
  | nil => rfl
  | cons a as => rw [List.dropWhile_cons, if_neg (by simp [h a (by simp)])]

theorem rstrip_of_all_false (t : List Char) (h : ∀ c ∈ t, pyIsSpace c = false) :
    rstripChars t = t := by
  unfold rstripChars
  rw [dropWhile_of_all_false _ _ (fun c hc => h c (List.mem_reverse.mp hc)),
    List.reverse_reverse]

theorem rstrip_append (a b : List Char) :
    rstripChars (a ++ b) =
      if rstripChars b = [] then rstripChars a else a ++ rstripChars b := by
  unfold rstripChars
  rw [List.reverse_append, List.dropWhile_append]
  by_cases h : (b.reverse.dropWhile pyIsSpace).isEmpty
  · rw [if_pos h, if_pos]
    simpa [List.isEmpty_iff] using h
  · rw [if_neg h, if_neg, List.reverse_append, List.reverse_reverse]
    simpa [List.isEmpty_iff] using h

theorem rstrip_single (c : Char) :
    rstripChars [c] = if pyIsSpace c then [] else [c] := by
  by_cases h : pyIsSpace c <;> simp [rstripChars, h]

theorem rstrip_cons (c : Char) (cs : List Char) :
    rstripChars (c :: cs) =
      if rstripChars cs = [] then (if pyIsSpace c then [] else [c])
      else c :: rstripChars cs := by
  have h := rstrip_append [c] cs
  simp only [List.singleton_append] at h
  rw [h, rstrip_single]

theorem lstrip_nil_iff (cs : List Char) :
    lstripChars cs = [] ↔ ∀ c ∈ cs, pyIsSpace c = true := by
  simp [lstripChars, List.dropWhile_eq_nil_iff]

theorem rstrip_nil_iff (cs : List Char) :
    rstripChars cs = [] ↔ ∀ c ∈ cs, pyIsSpace c = true := by
  unfold rstripChars
  rw [List.reverse_eq_nil_iff, List.dropWhile_eq_nil_iff]
  constructor
  · intro h c hc
    exact h c (List.mem_reverse.mpr hc)
  · intro h c hc
    exact h c (List.mem_reverse.mp hc)

theorem lstrip_rstrip_comm :
    ∀ cs : List Char, lstripChars (rstripChars cs) = rstripChars (lstripChars cs) := by
  intro cs
  induction cs with
  | nil => rfl
  | cons c cs ih =>
    have h1 : lstripChars (c :: cs) = if pyIsSpace c then lstripChars cs else c :: cs := by
      by_cases hc : pyIsSpace c <;> simp [lstripChars, hc]
    by_cases hc : pyIsSpace c
    · rw [h1, if_pos hc, rstrip_cons]
      by_cases hnil : rstripChars cs = []
      · rw [if_pos hnil, if_pos hc, ← ih, hnil]
      · rw [if_neg hnil]
        have h2 : lstripChars (c :: rstripChars cs) = lstripChars (rstripChars cs) := by
          simp [lstripChars, hc]
        rw [h2, ih]
    · rw [h1, if_neg hc, rstrip_cons]
      by_cases hnil : rstripChars cs = []
      · rw [if_pos hnil, if_neg hc]
        simp [lstripChars, hc]
      · rw [if_neg hnil]
        simp [lstripChars, hc]

theorem strip_cons_ne_nil (c : Char) (r : List Char) (hc : pyIsSpace c = false) :
    pyStripChars (c :: r) ≠ [] := by
  intro h
  unfold pyStripChars at h
  have hl : lstripChars (c :: r) = c :: r := by simp [lstripChars, hc]
  rw [hl] at h
  have := (rstrip_nil_iff (c :: r)).mp h c (by simp)
  simp [hc] at this

theorem splitWsMax_ws_skip (n : Nat) (q : List Char) :
    splitWsMax n (' ' :: q) = splitWsMax n q := by
  have h : (' ' :: q).dropWhile pyIsSpace = q.dropWhile pyIsSpace := by
    rw [List.dropWhile_cons, if_pos (by decide)]
  cases n with
  | zero => simp only [splitWsMax, h]
  | succ n => simp only [splitWsMax, h]

theorem splitWsMax_token (n : Nat) (t r : List Char) (ht : t ≠ [])
    (hall : ∀ c ∈ t, pyIsSpace c = false)
    (hr : r = [] ∨ ∃ r', r = ' ' :: r') :
    splitWsMax (n + 1) (t ++ r) = t :: splitWsMax n r := by
  obtain ⟨c, t', rfl⟩ : ∃ c t', t = c :: t' := by
    cases t with
    | nil => exact absurd rfl ht
    | cons c t' => exact ⟨c, t', rfl⟩
  have hdrop : ((c :: t') ++ r).dropWhile pyIsSpace = (c :: t') ++ r := by
    rw [List.cons_append, List.dropWhile_cons, if_neg (by simp [hall c (by simp)])]
  have htake : ((c :: t') ++ r).takeWhile nonWs = c :: t' := by
    rw [List.takeWhile_append_of_pos (by intro a ha; simp [nonWs, hall a ha])]
    have : r.takeWhile nonWs = [] := by
      rcases hr with rfl | ⟨r', rfl⟩
      · rfl
      · rw [List.takeWhile_cons, if_neg (by decide)]
    rw [this, List.append_nil]
  have hdrop2 : ((c :: t') ++ r).dropWhile nonWs = r := by
    rw [List.dropWhile_append_of_pos (by intro a ha; simp [nonWs, hall a ha])]
    rcases hr with rfl | ⟨r', rfl⟩
    · rfl
    · rw [List.dropWhile_cons, if_neg (by decide)]
  simp only [splitWsMax, hdrop, htake, hdrop2]
  rw [if_neg (by simp)]

theorem splitWsMax_elem :
    ∀ (n : Nat) (cs l : List Char), l ∈ splitWsMax n cs →
      ∃ c r, l = c :: r ∧ pyIsSpace c = false := by
  intro n
  induction n with
  | zero =>
    intro cs l hl
    simp only [splitWsMax] at hl
    by_cases h : (cs.dropWhile pyIsSpace).isEmpty
    · simp [h] at hl
    · rw [if_neg h] at hl
      simp at hl
      subst hl
      cases hd : cs.dropWhile pyIsSpace with
      | nil => simp [hd] at h
      | cons c r => exact ⟨c, r, rfl, dropWhile_first_false _ _ _ _ hd⟩
  | succ n ih =>
    intro cs l hl
    simp only [splitWsMax] at hl
    by_cases h : (cs.dropWhile pyIsSpace).isEmpty
    · simp [h] at hl
    · rw [if_neg h] at hl
      cases hd : cs.dropWhile pyIsSpace with
      | nil => simp [hd] at h
      | cons c r =>
        rw [hd] at hl
        have hc : pyIsSpace c = false := dropWhile_first_false _ _ _ _ hd
        rcases List.mem_cons.mp hl with rfl | hmem
        · rw [List.takeWhile_cons, if_pos (by simp [nonWs, hc])]
          exact ⟨c, _, rfl, hc⟩
        · exact ih _ _ hmem

theorem lstrip_rstrip_ne_nil (q : List Char) (hq : rstripChars q ≠ []) :
    lstripChars (rstripChars q) ≠ [] := by
  intro h
  rw [lstrip_nil_iff] at h
  unfold rstripChars at hq h
  cases hx : q.reverse.dropWhile pyIsSpace with
  | nil => exact hq (by rw [hx]; rfl)
  | cons c r =>
    have hc : pyIsSpace c = false := dropWhile_first_false _ _ _ _ hx
    have hmem : c ∈ (q.reverse.dropWhile pyIsSpace).reverse := by
      rw [hx]; exact List.mem_reverse.mpr (by simp)
    have := h c hmem
    simp [hc] at this

theorem splitStrip_two_tok (t0 t q : List Char)
    (ht0 : t0 ≠ []) (hall0 : ∀ c ∈ t0, pyIsSpace c = false)
    (ht : t ≠ []) (hall : ∀ c ∈ t, pyIsSpace c = false) :
    splitWsMax 2 (pyStripChars (t0 ++ ' ' :: (t ++ ' ' :: q))) =
      if lstripChars (rstripChars q) = [] then [t0, t]
      else [t0, t, lstripChars (rstripChars q)] := by
  obtain ⟨c0, t0', rfl⟩ : ∃ c0 t0', t0 = c0 :: t0' := by
    cases t0 with
    | nil => exact absurd rfl ht0
    | cons c0 t0' => exact ⟨c0, t0', rfl⟩
  have hc0 : pyIsSpace c0 = false := hall0 c0 (by simp)
  have hlfull : ∀ r : List Char, lstripChars ((c0 :: t0') ++ r) = (c0 :: t0') ++ r := by
    intro r
    simp [lstripChars, List.dropWhile_cons, hc0]
  have hrt : rstripChars t = t := rstrip_of_all_false t hall
  have hst : rstripChars (' ' :: t) = ' ' :: t := by
    rw [rstrip_cons, hrt, if_neg ht]
  have hstep : pyStripChars ((c0 :: t0') ++ ' ' :: (t ++ ' ' :: q)) =
      if rstripChars q = [] then (c0 :: t0') ++ ' ' :: t
      else (c0 :: t0') ++ ' ' :: (t ++ ' ' :: rstripChars q) := by
    unfold pyStripChars
    rw [hlfull]
    have hassoc : (c0 :: t0') ++ ' ' :: (t ++ ' ' :: q) =
        ((c0 :: t0') ++ ' ' :: (t ++ [' '])) ++ q := by
      simp
    rw [hassoc, rstrip_append]
    by_cases hq : rstripChars q = []
    · rw [if_pos hq, if_pos hq]
      have h2 : (c0 :: t0') ++ ' ' :: (t ++ [' ']) =
          ((c0 :: t0') ++ ' ' :: t) ++ [' '] := by simp
      rw [h2, rstrip_append, rstrip_single, if_pos (by decide)]
      have h3 : (c0 :: t0') ++ ' ' :: t = (c0 :: t0') ++ (' ' :: t) := rfl
      rw [h3, rstrip_append, hst, if_neg (by simp)]
    · rw [if_neg hq, if_neg hq]
      simp
  rw [hstep]
  by_cases hq : rstripChars q = []
  · rw [if_pos hq, if_pos (by rw [hq]; rfl)]
    rw [splitWsMax_token 1 (c0 :: t0') (' ' :: t) (by simp) hall0 (Or.inr ⟨t, rfl⟩)]
    rw [splitWsMax_ws_skip]
    have hts : splitWsMax 1 t = splitWsMax 1 (t ++ []) := by rw [List.append_nil]
    rw [hts, splitWsMax_token 0 t [] ht hall (Or.inl rfl)]
    rfl
  · rw [if_neg hq, if_neg (lstrip_rstrip_ne_nil q hq)]
    rw [splitWsMax_token 1 (c0 :: t0') (' ' :: (t ++ ' ' :: rstripChars q)) (by simp) hall0
      (Or.inr ⟨_, rfl⟩)]
    rw [splitWsMax_ws_skip]
    rw [splitWsMax_token 0 t (' ' :: rstripChars q) ht hall (Or.inr ⟨_, rfl⟩)]
    rw [splitWsMax_ws_skip]
    simp only [splitWsMax]
    rw [if_neg (by simpa [lstripChars, List.isEmpty_iff] using lstrip_rstrip_ne_nil q hq)]
    rfl

theorem pyStrip_data (q : String) :
    (pyStrip q).data = lstripChars (rstripChars q.data) := by
  show pyStripChars q.data = _
  unfold pyStripChars
  rw [← lstrip_rstrip_comm]

theorem pyStrip_empty_iff (q : String) :
    pyStrip q = "" ↔ lstripChars (rstripChars q.data) = [] := by
  constructor
  · intro h
    rw [← pyStrip_data, h]
  · intro h
    apply String.ext
    rw [pyStrip_data]
    exact h

theorem memParse_two_tok (cmd t q : String)
    (hcmd : cmd.data = "/mem".data ++ ' ' :: (t.data ++ ' ' :: q.data))
    (ht : t.data ≠ []) (hall : ∀ c ∈ t.data, pyIsSpace c = false) :
    memParse cmd = if pyStrip q = "" then ["/mem", t] else ["/mem", t, pyStrip q] := by
  unfold memParse
  rw [hcmd, splitStrip_two_tok "/mem".data t.data q.data (by simp) (by decide) ht hall]
  by_cases hq : lstripChars (rstripChars q.data) = []
  · rw [if_pos hq, if_pos ((pyStrip_empty_iff q).mpr hq)]
    rfl
  · rw [if_neg hq, if_neg (fun h => hq ((pyStrip_empty_iff q).mp h))]
    show [String.mk "/mem".data, String.mk t.data, String.mk (lstripChars (rstripChars q.data))]
      = _
    rw [show String.mk (lstripChars (rstripChars q.data)) = pyStrip q from by
      conv_rhs => rw [show pyStrip q = String.mk (pyStrip q).data from rfl]
      rw [pyStrip_data]]

/-! ### Claim theorems -/

/-- Claim C3: the importance heuristic `should_store_memory` returns `true`
exactly when some keyword of the fixed set occurs as a substring of the
lower-cased concatenation `user_input ++ " " ++ answer`, or the user input is
longer than 140 characters; as a Lean function it is pure and deterministic
by construction. -/
theorem claim_C3 (u a : String) :
    should_store_memory u a = true ↔
      ((∃ k ∈ keywords, ∃ l r,
          (pyLowerStr (u ++ " " ++ a)).data = l ++ k.data ++ r) ∨
        140 < u.length) := by
  unfold should_store_memory
  by_cases hA : (keywords.any fun k => pyIn k (pyLowerStr (u ++ " " ++ a))) = true
  · rw [if_pos hA]
    simp only [true_iff]
    obtain ⟨k, hk, hin⟩ := List.any_eq_true.mp hA
    exact Or.inl ⟨k, hk, (pyIn_iff k _).mp hin⟩
  · rw [if_neg hA]
    by_cases hL : u.length > 140
    · rw [if_pos hL]
      simp only [true_iff]
      exact Or.inr hL
    · rw [if_neg hL]
      constructor
      · intro h
        cases h
      · intro h
        rcases h with ⟨k, hk, l, r, hdata⟩ | h140
        · exact absurd (List.any_eq_true.mpr
            ⟨k, hk, (pyIn_iff k (pyLowerStr (u ++ " " ++ a))).mpr ⟨l, r, hdata⟩⟩) hA
        · exact absurd h140 hL

/-- Claim C4: the normalizer maps `None` to `[]`, a list to itself, a mapping
with a list under `results` to that list, any other mapping to the singleton
of itself, and any other non-`None` value to the singleton of itself. -/
theorem claim_C4 :
    normalize_mem_items PyVal.none = [] ∧
    (∀ xs, normalize_mem_items (.list xs) = xs) ∧
    (∀ d xs, dictGet d "results" = some (.list xs) →
      normalize_mem_items (.dict d) = xs) ∧
    (∀ d, (∀ xs, dictGet d "results" ≠ some (.list xs)) →
      normalize_mem_items (.dict d) = [.dict d]) ∧
    (∀ b, normalize_mem_items (.bool b) = [.bool b]) ∧
    (∀ n, normalize_mem_items (.int n) = [.int n]) ∧
    (∀ s, normalize_mem_items (.str s) = [.str s]) := by
  refine ⟨rfl, fun xs => rfl, ?_, ?_, fun b => rfl, fun n => rfl, fun s => rfl⟩
  · intro d xs h
    simp [normalize_mem_items, h]
  · intro d h
    show (match dictGet d "results" with
      | some (.list xs) => xs
      | _ => [PyVal.dict d]) = [PyVal.dict d]
    cases hd : dictGet d "results" with
    | none => rfl
    | some v =>
      cases v with
      | list xs => exact absurd hd (h xs)
      | none => rfl
      | bool b => rfl
      | int n => rfl
      | str s => rfl
      | dict dd => rfl

/-- Witness for C4: the normalizer evaluated on a `results`-carrying mapping
and on a plain mapping. -/
theorem claim_C4_witness :
    normalize_mem_items (.dict [("results", .list [.int 1])]) = [.int 1] ∧
    normalize_mem_items (.dict [("a", .int 1)]) = [.dict [("a", .int 1)]] :=
  ⟨claim_C4.2.2.1 [("results", .list [.int 1])] [.int 1] rfl,
   claim_C4.2.2.2.1 [("a", .int 1)] (fun _ h => Option.noConfusion h)⟩

/-- Counterexample to C5 as stated: the formatter also returns the literal
text "No memories found." for a NON-empty normalized input, namely a list
holding exactly that string, so "exactly when the normalized input is empty"
fails in the only-if direction. -/
theorem claim_C5_cex :
    format_memories (.list [.str "No memories found."]) 20 = .ok "No memories found." ∧
    normalize_mem_items (.list [.str "No memories found."]) ≠ [] :=
  ⟨rfl, by simp [normalize_mem_items]⟩

/-- Claim C5 (amended): the formatter returns "No memories found." whenever
the normalized input is empty (the same text can also arise from rendering a
non-empty input); otherwise it renders the first `limit` records in order,
newline-joined with no trailing separator, producing at most `limit` lines;
the documented record renders as "[m1] (chat, important) likes ETFs". -/
theorem claim_C5 :
    (∀ mems limit, normalize_mem_items mems = [] →
      format_memories mems limit = .ok "No memories found.") ∧
    (∀ mems limit ls, normalize_mem_items mems ≠ [] →
      renderAll ((normalize_mem_items mems).take limit) = .ok ls →
      format_memories mems limit = .ok (String.intercalate "\n" ls) ∧
        ls.length ≤ limit) ∧
    renderLine (.dict [("id", .str "m1"), ("text", .str "likes ETFs"),
      ("metadata", .dict [("source", .str "chat"), ("important", .bool true)])]) =
      .ok "[m1] (chat, important) likes ETFs" ∧
    format_memories (.list [.dict [("id", .str "m1"), ("text", .str "likes ETFs"),
      ("metadata", .dict [("source", .str "chat"), ("important", .bool true)])]]) 20 =
      .ok "[m1] (chat, important) likes ETFs" := by
  refine ⟨?_, ?_, rfl, rfl⟩
  · intro mems limit h
    unfold format_memories
    rw [h]
    rfl
  · intro mems limit ls h hr
    constructor
    · unfold format_memories
      rw [if_neg (by simpa [List.isEmpty_iff] using h), hr]
    · have hlen := renderAll_length _ _ hr
      rw [List.length_take] at hlen
      omega

/-- Witness for C5: the empty case and a two-record input truncated to one
line by `limit = 1`. -/
theorem claim_C5_witness :
    format_memories (.list []) 5 = .ok "No memories found." ∧
    (format_memories (.list [.int 7, .int 8]) 1 = .ok (String.intercalate "\n" ["7"]) ∧
      (["7"] : List String).length ≤ 1) :=
  ⟨claim_C5.1 (.list []) 5 rfl,
   claim_C5.2.1 (.list [.int 7, .int 8]) 1 ["7"] (by simp [normalize_mem_items]) rfl⟩


/-- Well-formedness of one normalized record, delimiting exactly the inputs
on which the formatter's per-record rendering cannot raise: for a mapping,
the text resolution must not reach a non-mapping `data` value, the resolved
metadata must be a mapping, and a truthy metadata `source` must be a string;
non-mapping records are always safe. -/
def itemOk : PyVal → Prop
  | .dict md =>
    (truthy (pyGet md "text") = true ∨ truthy (pyGet md "memory") = true ∨
      ∃ d2, (dictGet md "data").getD (PyVal.dict []) = PyVal.dict d2) ∧
    ∃ mm, pyOr (pyGet md "metadata") (pyOr (pyGet md "meta") (.dict [])) = .dict mm ∧
      (truthy (pyOr (pyGet mm "source") (.str "")) = false ∨
        ∃ s, pyOr (pyGet mm "source") (.str "") = .str s)
  | _ => True

theorem getText_ok (md : List (String × PyVal))
    (h : truthy (pyGet md "text") = true ∨ truthy (pyGet md "memory") = true ∨
      ∃ d2, (dictGet md "data").getD (PyVal.dict []) = PyVal.dict d2) :
    ∃ t, getText md = .ok t := by
  simp only [getText]
  by_cases h1 : truthy (pyGet md "text") = true
  · simp only [h1, if_true]
    exact ⟨_, rfl⟩
  · simp only [h1, if_false, Bool.false_eq_true]
    by_cases h2 : truthy (pyGet md "memory") = true
    · rw [if_pos h2]
      exact ⟨_, rfl⟩
    · rw [if_neg h2]
      rcases h with h | h | ⟨d2, hd⟩
      · exact absurd h h1
      · exact absurd h h2
      · simp only [hd]
        by_cases h3 : truthy (pyGet d2 "memory") = true
        · simp only [h3, if_true]
          exact ⟨_, rfl⟩
        · rw [if_neg h3]
          exact ⟨_, rfl⟩

theorem renderLine_ok (m : PyVal) (h : itemOk m) : ∃ b, renderLine m = .ok b := by
  cases m with
  | dict md =>
    obtain ⟨htext, mm, hmm, hsrc⟩ := h
    obtain ⟨t, ht⟩ := getText_ok md htext
    rcases hsrc with hfalse | ⟨s, hs⟩
    · simp only [renderLine, ht, hmm, hfalse]
      exact ⟨_, rfl⟩
    · simp only [renderLine, ht, hmm, hs]
      by_cases h4 : truthy (PyVal.str s) = true
      · simp only [h4, if_true]
        exact ⟨_, rfl⟩
      · rw [if_neg h4]
        exact ⟨_, rfl⟩
  | none => exact ⟨_, rfl⟩
  | bool b => exact ⟨_, rfl⟩
  | int n => exact ⟨_, rfl⟩
  | str s => exact ⟨_, rfl⟩
  | list xs => exact ⟨_, rfl⟩

/-- Counterexample to C6 as stated: the formatter is not total — a record
whose `data` field holds a non-mapping (here the integer 5) with no usable
`text`/`memory` field makes the text fallback call `.get` on that value, and
likewise a truthy non-mapping `metadata` value, so the code raises
`AttributeError` instead of degrading to a default. -/
theorem claim_C6_cex :
    format_memories (.list [.dict [("data", .int 5)]]) 20 =
      .error "AttributeError: object has no attribute 'get'" ∧
    format_memories (.list [.dict [("metadata", .str "x")]]) 20 =
      .error "AttributeError: object has no attribute 'get'" :=
  ⟨rfl, rfl⟩

/-- Claim C6 (amended): the formatter returns a string on every input whose
first `limit` normalized records are well formed in the sense of `itemOk`
(missing or falsy fields still degrade to defaults there); outside that set
the rendering can raise, as the counterexample shows. -/
theorem claim_C6 (v : PyVal) (limit : Nat)
    (h : ∀ m ∈ (normalize_mem_items v).take limit, itemOk m) :
    ∃ s, format_memories v limit = .ok s := by
  unfold format_memories
  by_cases he : (normalize_mem_items v).isEmpty
  · rw [if_pos he]
    exact ⟨_, rfl⟩
  · rw [if_neg he]
    obtain ⟨ls, hls⟩ := renderAll_ok_of_all _ (fun a ha => renderLine_ok a (h a ha))
    rw [hls]
    exact ⟨_, rfl⟩

/-- Witness for C6: a record with only a `text` field (absent id and
metadata) is well formed and formats successfully. -/
theorem claim_C6_witness :
    ∃ s, format_memories (.list [.dict [("text", .str "hello")]]) 20 = .ok s :=
  claim_C6 (.list [.dict [("text", .str "hello")]]) 20 (by
    intro m hm
    simp [normalize_mem_items] at hm
    subst hm
    exact ⟨Or.inl rfl, [], rfl, Or.inl rfl⟩)

/-- Claim C1: in `chat_once`, a raising memory search is swallowed, logged,
and replaced by empty results (the turn otherwise proceeds identically to a
turn whose search returned the empty list); a raising completion call
propagates its error and issues no add call; a raising add call is swallowed
and logged while the computed answer is still returned. -/
theorem claim_C1 :
    (∀ env st u e, env.searchResult = .error e →
      chat_once env st u =
        ⟨(chat_once {env with searchResult := .ok (.list [])} st u).result,
         (chat_once {env with searchResult := .ok (.list [])} st u).st,
         ("[mem0 search error] " ++ e) ::
           (chat_once {env with searchResult := .ok (.list [])} st u).logs,
         (chat_once {env with searchResult := .ok (.list [])} st u).addCalls⟩) ∧
    (∀ env st u block e, format_memories (effResults env) 8 = .ok block →
      env.completion (mkMessages st block u) = .error e →
      (chat_once env st u).result = .error e ∧ (chat_once env st u).addCalls = []) ∧
    (∀ env st u block ans e, format_memories (effResults env) 8 = .ok block →
      env.completion (mkMessages st block u) = .ok ans →
      env.addResult = .error e →
      (chat_once env st u).result = .ok ans ∧
        ("[mem0 add error] " ++ e) ∈ (chat_once env st u).logs) := by
  refine ⟨?_, ?_, ?_⟩
  · intro env st u e h
    have he : effResults env = .list [] := by simp [effResults, h]
    have he' : effResults {env with searchResult := .ok (.list [])} = .list [] := rfl
    have hl : searchLogs env = ["[mem0 search error] " ++ e] := by simp [searchLogs, h]
    have hl' : searchLogs {env with searchResult := .ok (.list [])} = ([] : List String) :=
      rfl
    have hfmt : format_memories (.list []) 8 = .ok "No memories found." := rfl
    simp only [chat_once, he, he', hl, hl', hfmt]
    cases hc : env.completion (mkMessages st "No memories found." u) with
    | error e2 => simp [hc]
    | ok ans => cases ha : env.addResult <;> simp [hc, ha]
  · intro env st u block e hf hc
    constructor <;> simp [chat_once, hf, hc]
  · intro env st u block ans e hf hc ha
    constructor <;> simp [chat_once, hf, hc, ha]

/-- The initial process state (local_assistant.py:19). -/
def stV : St := ⟨"vera"⟩

/-- A turn environment whose memory search raises. -/
def envSearchErr : Env := ⟨.error "boom", fun _ => .ok "hi there", .ok .none⟩

/-- A turn environment where every collaborator succeeds. -/
def envOkBase : Env := ⟨.ok (.list []), fun _ => .ok "hi there", .ok .none⟩

/-- A turn environment whose completion call raises. -/
def envComplErr : Env := ⟨.ok (.list []), fun _ => .error "down", .ok .none⟩

/-- A turn environment whose memory add raises. -/
def envAddErr : Env := ⟨.ok (.list []), fun _ => .ok "hi there", .error "nope"⟩

/-- Witness for C1: the three error modes evaluated on concrete environments. -/
theorem claim_C1_witness :
    (chat_once envSearchErr stV "hello" =
      ⟨(chat_once {envSearchErr with searchResult := .ok (.list [])} stV "hello").result,
       (chat_once {envSearchErr with searchResult := .ok (.list [])} stV "hello").st,
       ("[mem0 search error] " ++ "boom") ::
         (chat_once {envSearchErr with searchResult := .ok (.list [])} stV "hello").logs,
       (chat_once {envSearchErr with searchResult := .ok (.list [])} stV
         "hello").addCalls⟩) ∧
    ((chat_once envComplErr stV "hello").result = .error "down" ∧
      (chat_once envComplErr stV "hello").addCalls = []) ∧
    ((chat_once envAddErr stV "hello").result = .ok "hi there" ∧
      ("[mem0 add error] " ++ "nope") ∈ (chat_once envAddErr stV "hello").logs) :=
  ⟨claim_C1.1 envSearchErr stV "hello" "boom" rfl,
   claim_C1.2.1 envComplErr stV "hello" "No memories found." "down" rfl rfl,
   claim_C1.2.2 envAddErr stV "hello" "No memories found." "hi there" "nope" rfl rfl rfl⟩

/-- Claim C2: whenever the completion step succeeds, `chat_once` issues
exactly one add call, carrying the two-message turn, the current agent id,
and metadata `{source: "local_assistant", important: <heuristic>}`; and for
the input "My favorite color is blue, remember that" the heuristic is true
for every answer, so the persisted metadata has `important = true`. -/
theorem claim_C2 :
    (∀ env st u block ans,
      format_memories (effResults env) 8 = .ok block →
      env.completion (mkMessages st block u) = .ok ans →
      (chat_once env st u).addCalls =
        [⟨[⟨"user", u⟩, ⟨"assistant", ans⟩], st.CURRENT_AGENT_ID,
          .dict [("source", .str "local_assistant"),
                 ("important", .bool (should_store_memory u ans))]⟩]) ∧
    (∀ ans, should_store_memory "My favorite color is blue, remember that" ans = true) := by
  constructor
  · intro env st u block ans hf hc
    simp [chat_once, hf, hc]
  · intro ans
    simp only [should_store_memory]
    have hin : pyIn "remember"
        (pyLowerStr ("My favorite color is blue, remember that" ++ " " ++ ans)) = true := by
      apply (pyIn_iff _ _).mpr
      refine ⟨"my favorite color is blue, ".data,
        " that".data ++ ' ' :: (ans.data.map pyCharLower), ?_⟩
      simp only [pyLowerStr, String.data_append, List.map_append]
      rw [show List.map pyCharLower "My favorite color is blue, remember that".data
        = "my favorite color is blue, remember that".data from by decide]
      rw [show List.map pyCharLower " ".data = [' '] from by decide]
      rw [show ("my favorite color is blue, remember that".data : List Char)
        = "my favorite color is blue, ".data ++ "remember".data ++ " that".data
        from by decide]
      simp [List.append_assoc]
    have hany : (keywords.any fun k =>
        pyIn k (pyLowerStr ("My favorite color is blue, remember that" ++ " " ++ ans)))
        = true :=
      List.any_eq_true.mpr ⟨"remember", by simp [keywords], hin⟩
    rw [if_pos hany]

/-- Witness for C2: the add call recorded for a successful concrete turn,
and the heuristic on the documented input. -/
theorem claim_C2_witness :
    (chat_once envOkBase stV "hello").addCalls =
      [⟨[⟨"user", "hello"⟩, ⟨"assistant", "hi there"⟩], stV.CURRENT_AGENT_ID,
        .dict [("source", .str "local_assistant"),
               ("important", .bool (should_store_memory "hello" "hi there"))]⟩] ∧
    should_store_memory "My favorite color is blue, remember that" "ok" = true :=
  ⟨claim_C2.1 envOkBase stV "hello" "No memories found." "hi there" rfl rfl,
   claim_C2.2 "ok"⟩

theorem pyStrip_of_parse_ne (cmd p : String) (hp : p ∈ agentParse cmd) :
    pyStrip p ≠ "" := by
  unfold agentParse at hp
  obtain ⟨l, hl, rfl⟩ := List.mem_map.mp hp
  obtain ⟨c, r, rfl, hc⟩ := splitWsMax_elem 1 _ l hl
  intro h
  exact strip_cons_ne_nil c r hc (congrArg String.data h)

/-- Counterexample to C7 as stated: the input "/agent   " (a blank name) is
collapsed by `strip()` to a bare "/agent" before splitting, so the handler
returns the current-agent report, not a usage message. -/
theorem claim_C7_cex :
    handle_agent_command ⟨"vera"⟩ "/agent   " = .ok ("Current agent: vera", ⟨"vera"⟩) ∧
    "Current agent: vera" ≠ "Usage: /agent <name>" :=
  ⟨rfl, by decide⟩

/-- Claim C7 (amended): a bare "/agent" — including any command whose
stripped text splits into a single token, such as "/agent" followed only by
whitespace — reports the current agent without mutating state; "/agent
<name>" with a parsed second token always has a non-empty trimmed name and
switches to it with a confirmation; the usage branch for an empty trimmed
name is unreachable, so the handler never returns the usage message. -/
theorem claim_C7 :
    (∀ st cmd, (agentParse cmd).length = 1 →
      handle_agent_command st cmd = .ok ("Current agent: " ++ st.CURRENT_AGENT_ID, st)) ∧
    (∀ st cmd p0 p1, agentParse cmd = [p0, p1] →
      pyStrip p1 ≠ "" ∧
      handle_agent_command st cmd =
        .ok ("Switched agent to: " ++ pyStrip p1, ⟨pyStrip p1⟩)) ∧
    (∀ st cmd r st2, handle_agent_command st cmd = .ok (r, st2) →
      r ≠ "Usage: /agent <name>") := by
  refine ⟨?_, ?_, ?_⟩
  · intro st cmd h
    simp [handle_agent_command, h]
  · intro st cmd p0 p1 hp
    have hne := pyStrip_of_parse_ne cmd p1 (by rw [hp]; simp)
    refine ⟨hne, ?_⟩
    simp [handle_agent_command, hp, hne]
  · intro st cmd r st2 h
    unfold handle_agent_command at h
    by_cases hlen : (agentParse cmd).length = 1
    · simp only [hlen, if_true, Except.ok.injEq, Prod.mk.injEq] at h
      obtain ⟨h1, _⟩ := h
      subst h1
      intro hEq
      have hdata : ('C' :: ("urrent agent: ".data ++ st.CURRENT_AGENT_ID.data))
          = 'U' :: "sage: /agent <name>".data := by
        have := congrArg String.data hEq
        rw [String.data_append] at this
        exact this
      injection hdata with hc _
      exact absurd hc (by decide)
    · cases hparse : agentParse cmd with
      | nil => simp [hparse] at h
      | cons p0 rest =>
        cases rest with
        | nil => exact absurd (by rw [hparse]; rfl) hlen
        | cons p1 rest2 =>
          have hne := pyStrip_of_parse_ne cmd p1 (by rw [hparse]; simp)
          simp only [hparse, List.length_cons, hne, Except.ok.injEq,
            Prod.mk.injEq] at h
          rw [if_neg not_false] at h
          rw [if_neg (by omega)] at h
          simp only [Except.ok.injEq, Prod.mk.injEq] at h
          obtain ⟨h1, _⟩ := h
          subst h1
          intro hEq
          have hdata : ('S' :: ("witched agent to: ".data ++ (pyStrip p1).data))
              = 'U' :: "sage: /agent <name>".data := by
            have := congrArg String.data hEq
            rw [String.data_append] at this
            exact this
          injection hdata with hc _
          exact absurd hc (by decide)

/-- Witness for C7: concrete bare and named agent commands. -/
theorem claim_C7_witness :
    handle_agent_command stV "/agent" =
      .ok ("Current agent: " ++ stV.CURRENT_AGENT_ID, stV) ∧
    (pyStrip "bob" ≠ "" ∧
      handle_agent_command stV "/agent bob" =
        .ok ("Switched agent to: " ++ pyStrip "bob", ⟨pyStrip "bob"⟩)) ∧
    "Switched agent to: bob" ≠ "Usage: /agent <name>" :=
  ⟨claim_C7.1 stV "/agent" rfl,
   claim_C7.2.1 stV "/agent bob" "/agent" "bob" rfl,
   claim_C7.2.2 stV "/agent bob" "Switched agent to: bob" ⟨"bob"⟩ rfl⟩

theorem handle_mem_parts_st (env : MemEnv) (st : St) (parts : List String) :
    (handle_mem_parts env st parts).st = st := by
  unfold handle_mem_parts
  split
  · split <;> rfl
  · dsimp only
    split_ifs <;> (repeat' split) <;> rfl

/-- Claim C8: `CURRENT_AGENT_ID` is invariant under `chat_once` and under
every `/mem` subcommand; `handle_agent_command` either leaves it unchanged or
performs the switch to a non-empty name with the confirmation message — it is
the only mutator. The normalizer, formatter and heuristic are plain functions
of their arguments and do not touch the state at all. -/
theorem claim_C8 :
    (∀ env st u, (chat_once env st u).st = st) ∧
    (∀ env st cmd, (handle_mem_command env st cmd).st = st) ∧
    (∀ st cmd out, handle_agent_command st cmd = .ok out →
      out.2 = st ∨ ∃ nm, nm ≠ "" ∧ out.2 = ⟨nm⟩ ∧
        out.1 = "Switched agent to: " ++ nm) := by
  refine ⟨?_, ?_, ?_⟩
  · intro env st u
    cases hf : format_memories (effResults env) 8 with
    | error e => simp [chat_once, hf]
    | ok block =>
      cases hc : env.completion (mkMessages st block u) with
      | error e => simp [chat_once, hf, hc]
      | ok ans => simp [chat_once, hf, hc]
  · intro env st cmd
    exact handle_mem_parts_st env st (memParse cmd)
  · intro st cmd out h
    unfold handle_agent_command at h
    by_cases hlen : (agentParse cmd).length = 1
    · simp only [hlen, if_true, Except.ok.injEq] at h
      left
      rw [← h]
    · cases hparse : agentParse cmd with
      | nil => simp [hparse] at h
      | cons p0 rest =>
        cases rest with
        | nil => exact absurd (by rw [hparse]; rfl) hlen
        | cons p1 rest2 =>
          have hne := pyStrip_of_parse_ne cmd p1 (by rw [hparse]; simp)
          simp only [hparse, List.length_cons, hne, Except.ok.injEq] at h
          rw [if_neg not_false] at h
          rw [if_neg (by omega)] at h
          simp only [Except.ok.injEq] at h
          right
          exact ⟨pyStrip p1, hne, by rw [← h], by rw [← h]⟩

/-- A `/mem` environment where every collaborator call succeeds with an
empty or `None` result. -/
def memEnvOk : MemEnv :=
  ⟨.ok (.list []), fun _ => .ok (.list []), fun _ => .ok .none,
   fun _ => .ok .none, .ok .none⟩

/-- Witness for C8: the invariance of the state under a concrete turn and a
concrete memory command, and the switch case of the agent handler. -/
theorem claim_C8_witness :
    (chat_once envOkBase stV "hello").st = stV ∧
    (handle_mem_command memEnvOk stV "/mem").st = stV ∧
    ((("Switched agent to: bob", (⟨"bob"⟩ : St)).2 = stV) ∨
      ∃ nm, nm ≠ "" ∧ (("Switched agent to: bob", (⟨"bob"⟩ : St)).2 = ⟨nm⟩) ∧
        ("Switched agent to: bob", (⟨"bob"⟩ : St)).1 = "Switched agent to: " ++ nm) :=
  ⟨claim_C8.1 envOkBase stV "hello",
   claim_C8.2.1 memEnvOk stV "/mem",
   claim_C8.2.2 stV "/agent bob" ("Switched agent to: bob", ⟨"bob"⟩) rfl⟩

/-- Claim C9: `/mem search` with no query returns the usage string and issues
no collaborator call; with a query, the command line splits into at most 3
tokens, the query is the verbatim remainder after the subcommand (so
multi-word queries are preserved), and the search call carries it. -/
theorem claim_C9 :
    (∀ env st, handle_mem_command env st "/mem search" =
      ⟨.ok "Usage: /mem search <query>", st, []⟩) ∧
    (∀ env st q, pyStrip q ≠ "" →
      memParse ("/mem search " ++ q) = ["/mem", "search", pyStrip q] ∧
      (handle_mem_command env st ("/mem search " ++ q)).calls =
        [MemCall.search (pyStrip q) st.CURRENT_AGENT_ID]) ∧
    (∀ cmd, (memParse cmd).length ≤ 3) := by
  refine ⟨fun env st => rfl, ?_, ?_⟩
  · intro env st q hq
    have hparse : memParse ("/mem search " ++ q) =
        if pyStrip q = "" then ["/mem", "search"] else ["/mem", "search", pyStrip q] :=
      memParse_two_tok ("/mem search " ++ q) "search" q rfl (by decide) (by decide)
    rw [if_neg hq] at hparse
    refine ⟨hparse, ?_⟩
    unfold handle_mem_command
    rw [hparse]
    have hsub : pyLowerStr "search" = "search" := by decide
    cases hs : env.searchFor (pyStrip q) with
    | error e => simp [handle_mem_parts, hs, hsub]
    | ok res => simp [handle_mem_parts, hs, hsub]
  · intro cmd
    unfold memParse
    rw [List.length_map]
    exact splitWsMax_length 2 (pyStripChars cmd.data)

/-- Witness for C9: the bare subcommand, a concrete multi-word query, and the
token bound. -/
theorem claim_C9_witness :
    handle_mem_command memEnvOk stV "/mem search" =
      ⟨.ok "Usage: /mem search <query>", stV, []⟩ ∧
    (memParse ("/mem search " ++ "multi word query") =
      ["/mem", "search", pyStrip "multi word query"] ∧
      (handle_mem_command memEnvOk stV ("/mem search " ++ "multi word query")).calls =
        [MemCall.search (pyStrip "multi word query") stV.CURRENT_AGENT_ID]) ∧
    (memParse "/mem a b c d").length ≤ 3 :=
  ⟨claim_C9.1 memEnvOk stV,
   claim_C9.2.1 memEnvOk stV "multi word query" (by decide),
   claim_C9.2.2 "/mem a b c d"⟩

theorem mem_parts_lower_sub (env : MemEnv) (st : St) (p0 s : String)
    (rest : List String) (w : String)
    (hw : w ∈ (["search", "show", "delete", "clear"] : List String))
    (hs : pyLowerStr s = w) :
    handle_mem_parts env st (p0 :: s :: rest) = handle_mem_parts env st (p0 :: w :: rest) := by
  have hww : pyLowerStr w = w := by
    simp only [List.mem_cons, List.not_mem_nil, or_false] at hw
    rcases hw with rfl | rfl | rfl | rfl <;> decide
  cases rest with
  | nil => simp [handle_mem_parts, hs, hww]
  | cons p2 rest2 => simp [handle_mem_parts, hs, hww]

/-- Claim C10: the `/mem` subcommand token is matched after lower-casing, so
dispatch depends only on its lower-cased form; in particular "/mem SEARCH q"
behaves exactly like "/mem search q" for every query string. -/
theorem claim_C10 :
    (∀ (env : MemEnv) (st : St) (p0 s : String) (rest : List String) (w : String),
      w ∈ (["search", "show", "delete", "clear"] : List String) →
      pyLowerStr s = w →
      handle_mem_parts env st (p0 :: s :: rest) =
        handle_mem_parts env st (p0 :: w :: rest)) ∧
    (∀ env st q, handle_mem_command env st ("/mem SEARCH " ++ q) =
      handle_mem_command env st ("/mem search " ++ q)) := by
  refine ⟨mem_parts_lower_sub, ?_⟩
  intro env st q
  unfold handle_mem_command
  have h1 : memParse ("/mem SEARCH " ++ q) =
      if pyStrip q = "" then ["/mem", "SEARCH"] else ["/mem", "SEARCH", pyStrip q] :=
    memParse_two_tok ("/mem SEARCH " ++ q) "SEARCH" q rfl (by decide) (by decide)
  have h2 : memParse ("/mem search " ++ q) =
      if pyStrip q = "" then ["/mem", "search"] else ["/mem", "search", pyStrip q] :=
    memParse_two_tok ("/mem search " ++ q) "search" q rfl (by decide) (by decide)
  rw [h1, h2]
  by_cases hq : pyStrip q = ""
  · rw [if_pos hq, if_pos hq]
    exact mem_parts_lower_sub env st "/mem" "SEARCH" [] "search" (by simp) (by decide)
  · rw [if_neg hq, if_neg hq]
    exact mem_parts_lower_sub env st "/mem" "SEARCH" [pyStrip q] "search" (by simp)
      (by decide)

/-- Witness for C10: the capitalized subcommand dispatches like its
lower-case form on a concrete parts list. -/
theorem claim_C10_witness :
    handle_mem_parts memEnvOk stV ["/mem", "SEARCH", "x"] =
      handle_mem_parts memEnvOk stV ["/mem", "search", "x"] :=
  claim_C10.1 memEnvOk stV "/mem" "SEARCH" ["x"] "search" (by simp) (by decide)
